import Mathlib

/-!
Verification of the Pine-Script trend-line generator.

The repository's only non-trivial logic is the pure function
`generatePineScript(basePrice, forSymbol)` (chat-widget variant, the one that
returns `{ script } | { error }`): it floors the square root of the price,
rejects inputs whose floor is below 2, builds the five squares
`(base-2)² … (base+2)²`, bumps every even level by one, and interpolates the
results into a fixed Pine-Script template.  The JavaScript `number` input is
modelled as an exact rational; all intermediate arithmetic in the source is
exact integer arithmetic once `base` has been computed.
-/

/-- Embedding of `forSymbol.toUpperCase()`: upper-case every character of the
string (the symbols handled by the app are plain ASCII tickers). -/
def strToUpper (s : String) : String := ⟨s.data.map Char.toUpper⟩

/-- Embedding of `Math.floor(Math.sqrt(basePrice))`.  For a nonnegative exact
rational the floor of the real square root equals `Nat.sqrt` of the floor of
the number, which is the executable form used here (see
`sqrtBase_eq_floor_real_sqrt` below). -/
def sqrtBase (basePrice : ℚ) : ℕ := Nat.sqrt ⌊basePrice⌋₊

/-- Embedding of the arrow function `level => (level % 2 === 0 ? level + 1 : level)`
used to build `adjustedLevels`. -/
def adjustLevel (level : ℤ) : ℤ := if level % 2 = 0 then level + 1 else level

/-- Embedding of the `levels` array literal
`[(base-2)*(base-2), (base-1)*(base-1), base*base, (base+1)*(base+1), (base+2)*(base+2)]`. -/
def levelsOf (base : ℤ) : List ℤ :=
  [(base - 2) * (base - 2), (base - 1) * (base - 1), base * base,
   (base + 1) * (base + 1), (base + 2) * (base + 2)]

/-- Embedding of the error string built when `base < 2`. -/
def errorMessage (forSymbol : String) : String :=
  "Price for " ++ strToUpper forSymbol ++
    " is too low to generate meaningful trend lines (must be >= 4)."

/-- Fixed version/indicator header of the generated script (the template is
trimmed in the source, so the script starts directly with this header). -/
def scriptHeader : String :=
  "//@version=5\nindicator(\"Perfect Square Trendlines (Generated)\", overlay=true)\n\n"

/-- Embedding of one `plot(<level>, "<label>", color=color.white, style=plot.style_line, linewidth=<w>)`
line of the template. -/
def plotLine (level : ℤ) (label : String) (linewidth : ℕ) : String :=
  "plot(" ++ toString level ++ ", \"" ++ label ++
    "\", color=color.white, style=plot.style_line, linewidth=" ++ toString linewidth ++ ")"

/-- Embedding of the `scriptContent` template literal (after the `.trim()`
applied in the source, which removes the leading and trailing newline of the
template). -/
def renderScript (basePrice : ℚ) (forSymbol : String) (base : ℕ) (adjusted : List ℤ) : String :=
  scriptHeader ++
    "// Generated for symbol: " ++ strToUpper forSymbol ++
    " around price: " ++ toString basePrice ++
    "\n// Base perfect square root: " ++ toString base ++
    "\n// Logic: If a calculated level is an even number, 1 is added to it.\n\n" ++
    plotLine (adjusted.getD 0 0) ("Level -2") 2 ++ "\n" ++
    plotLine (adjusted.getD 1 0) ("Level -1") 2 ++ "\n" ++
    plotLine (adjusted.getD 2 0) ("Base Level") 3 ++ "\n" ++
    plotLine (adjusted.getD 3 0) ("Level +1") 2 ++ "\n" ++
    plotLine (adjusted.getD 4 0) ("Level +2") 2

/-- Successful output of the generator: the intermediate values `base`,
`levels`, `adjustedLevels` of the source function together with the rendered
script string (the spec's `LevelSet`). -/
structure LevelSet where
  base : ℕ
  rawLevels : List ℤ
  adjustedLevels : List ℤ
  script : String

/-- Embedding of `generatePineScript` (the pure chat-widget variant returning
`{ script } | { error }`), with the intermediate `levels` / `adjustedLevels`
arrays exposed in the success value. -/
def generatePineScript (basePrice : ℚ) (forSymbol : String) : Except String LevelSet :=
  let base := sqrtBase basePrice
  if base < 2 then
    Except.error (errorMessage forSymbol)
  else
    let levels := levelsOf (base : ℤ)
    let adjustedLevels := levels.map adjustLevel
    Except.ok { base := base, rawLevels := levels, adjustedLevels := adjustedLevels,
                script := renderScript basePrice forSymbol base adjustedLevels }

/-- Numeric view of a successful run: `base`, `rawLevels`, `adjustedLevels`. -/
def okLevels (basePrice : ℚ) (forSymbol : String) : Option (ℕ × List ℤ × List ℤ) :=
  (generatePineScript basePrice forSymbol).toOption.map
    (fun ls => (ls.base, ls.rawLevels, ls.adjustedLevels))

/-- Substring containment: `t` occurs contiguously inside `s`. -/
def strContains (s t : String) : Prop := ∃ pre post : String, s = pre ++ t ++ post

/-- Helper lemmas about the embedded definitions. -/

lemma sqrtBase_of_bounds (q : ℚ) (b : ℕ) (hlo : ((b * b : ℕ) : ℚ) ≤ q)
    (hhi : q < (((b + 1) * (b + 1) : ℕ) : ℚ)) : sqrtBase q = b := by
  have hq : 0 ≤ q := le_trans (by positivity) hlo
  have h1 : b * b ≤ ⌊q⌋₊ := Nat.le_floor hlo
  have h2 : ⌊q⌋₊ < (b + 1) * (b + 1) := by
    rw [Nat.floor_lt hq]
    exact hhi
  have hle : b ≤ sqrtBase q := Nat.le_sqrt.mpr h1
  have hlt : sqrtBase q < b + 1 := by
    rw [sqrtBase, Nat.sqrt_lt']
    calc ⌊q⌋₊ < (b + 1) * (b + 1) := h2
    _ = (b + 1) ^ 2 := by ring
  omega

lemma gen_eq_ok {bp : ℚ} {sym : String} (hb : ¬ sqrtBase bp < 2) :
    generatePineScript bp sym =
      Except.ok { base := sqrtBase bp, rawLevels := levelsOf ((sqrtBase bp : ℕ) : ℤ),
                  adjustedLevels := (levelsOf ((sqrtBase bp : ℕ) : ℤ)).map adjustLevel,
                  script := renderScript bp sym (sqrtBase bp)
                    ((levelsOf ((sqrtBase bp : ℕ) : ℤ)).map adjustLevel) } := by
  simp only [generatePineScript]
  rw [if_neg hb]

lemma gen_eq_error {bp : ℚ} {sym : String} (hb : sqrtBase bp < 2) :
    generatePineScript bp sym = Except.error (errorMessage sym) := by
  simp only [generatePineScript]
  rw [if_pos hb]

lemma gen_ok_elim {bp : ℚ} {sym : String} {ls : LevelSet}
    (h : generatePineScript bp sym = Except.ok ls) :
    2 ≤ sqrtBase bp ∧ ls.base = sqrtBase bp ∧
      ls.rawLevels = levelsOf ((sqrtBase bp : ℕ) : ℤ) ∧
      ls.adjustedLevels = (levelsOf ((sqrtBase bp : ℕ) : ℤ)).map adjustLevel ∧
      ls.script = renderScript bp sym (sqrtBase bp)
        ((levelsOf ((sqrtBase bp : ℕ) : ℤ)).map adjustLevel) := by
  by_cases hb : sqrtBase bp < 2
  · rw [gen_eq_error hb] at h
    exact absurd h (by simp)
  · rw [gen_eq_ok hb] at h
    injection h with h2
    subst h2
    exact ⟨by omega, rfl, rfl, rfl, rfl⟩

lemma sqrtBase_lt_two_iff {bp : ℚ} (hpos : 0 < bp) : sqrtBase bp < 2 ↔ bp < 4 := by
  rw [sqrtBase, Nat.sqrt_lt', show (2 : ℕ) ^ 2 = 4 by norm_num, Nat.floor_lt hpos.le]
  norm_num

lemma ok_four_le {bp : ℚ} {sym : String} {ls : LevelSet}
    (hok : generatePineScript bp sym = Except.ok ls) : 4 ≤ bp := by
  have h2 := (gen_ok_elim hok).1
  have h4n : 4 ≤ ⌊bp⌋₊ := by
    have := Nat.le_sqrt.mp h2
    omega
  have hq : 0 ≤ bp := by
    by_contra hneg
    push_neg at hneg
    rw [Nat.floor_of_nonpos hneg.le] at h4n
    omega
  calc (4 : ℚ) ≤ (⌊bp⌋₊ : ℚ) := by exact_mod_cast h4n
  _ ≤ bp := Nat.floor_le hq

lemma le_adjustLevel (l : ℤ) : l ≤ adjustLevel l := by
  rw [adjustLevel]
  split <;> omega

lemma adjustLevel_le (l : ℤ) : adjustLevel l ≤ l + 1 := by
  rw [adjustLevel]
  split <;> omega

lemma adjustLevel_lt_adjustLevel {a c : ℤ} (h : a + 2 ≤ c) :
    adjustLevel a < adjustLevel c := by
  have h1 := adjustLevel_le a
  have h2 := le_adjustLevel c
  omega

lemma adjustLevel_mono {a c : ℤ} (h : a ≤ c) : adjustLevel a ≤ adjustLevel c := by
  rcases eq_or_lt_of_le h with rfl | hlt
  · exact le_refl _
  · have h1 := adjustLevel_le a
    have h2 := le_adjustLevel c
    omega

lemma adjustLevel_odd (l : ℤ) : Odd (adjustLevel l) := by
  rcases Int.even_or_odd l with he | ho
  · rw [adjustLevel, if_pos (Int.even_iff.mp he)]
    exact he.add_one
  · rw [adjustLevel, if_neg (by rw [Int.odd_iff] at ho; omega)]
    exact ho

lemma map_adjust_getD (b : ℤ) (i : ℕ) (hi : i < 5) :
    ((levelsOf b).map adjustLevel).getD i 0 = adjustLevel ((levelsOf b).getD i 0) := by
  interval_cases i <;> rfl

lemma strict_of_three {b : ℤ} (hb : 3 ≤ b) :
    adjustLevel ((b - 2) * (b - 2)) < adjustLevel ((b - 1) * (b - 1)) ∧
    adjustLevel ((b - 1) * (b - 1)) < adjustLevel (b * b) ∧
    adjustLevel (b * b) < adjustLevel ((b + 1) * (b + 1)) ∧
    adjustLevel ((b + 1) * (b + 1)) < adjustLevel ((b + 2) * (b + 2)) :=
  ⟨adjustLevel_lt_adjustLevel (by nlinarith), adjustLevel_lt_adjustLevel (by nlinarith),
   adjustLevel_lt_adjustLevel (by nlinarith), adjustLevel_lt_adjustLevel (by nlinarith)⟩

lemma mono_of_two {b : ℤ} (hb : 2 ≤ b) :
    adjustLevel ((b - 2) * (b - 2)) ≤ adjustLevel ((b - 1) * (b - 1)) ∧
    adjustLevel ((b - 1) * (b - 1)) ≤ adjustLevel (b * b) ∧
    adjustLevel (b * b) ≤ adjustLevel ((b + 1) * (b + 1)) ∧
    adjustLevel ((b + 1) * (b + 1)) ≤ adjustLevel ((b + 2) * (b + 2)) :=
  ⟨adjustLevel_mono (by nlinarith), adjustLevel_mono (by nlinarith),
   adjustLevel_mono (by nlinarith), adjustLevel_mono (by nlinarith)⟩

lemma okLevels_concrete {bp : ℚ} {sym : String} {b : ℕ} (hb : sqrtBase bp = b)
    (h2 : 2 ≤ b) :
    okLevels bp sym = some (b, levelsOf (b : ℤ), (levelsOf (b : ℤ)).map adjustLevel) := by
  rw [okLevels, gen_eq_ok (by omega), hb]
  rfl

/-- Claim C1: for every positive `basePrice`, `generatePineScript` computes
`base = floor(sqrt(basePrice))` exactly and `rawLevels[i] = (base+(i-2))²` for
`i` in `0..4` in ascending index order; in particular `basePrice = 100` gives
`base = 10`, `rawLevels = [64,81,100,121,144]`,
`adjustedLevels = [65,81,101,121,145]`, and `basePrice = 50000` gives
`base = 223` with `adjustedLevels = [48841,49285,49729,50177,50625]`. -/
theorem generate_base_and_rawLevels (bp : ℚ) (sym : String) (ls : LevelSet)
    (hpos : 0 < bp) (hok : generatePineScript bp sym = Except.ok ls) :
    (ls.base = Nat.sqrt ⌊bp⌋₊ ∧
      ∀ i : ℕ, i < 5 → ls.rawLevels.getD i 0 = ((ls.base : ℤ) + ((i : ℤ) - 2)) ^ 2) ∧
    okLevels 100 ("AAPL") =
      some (10, [64, 81, 100, 121, 144], [65, 81, 101, 121, 145]) ∧
    okLevels 50000 ("BTCUSD") =
      some (223, [48841, 49284, 49729, 50176, 50625],
        [48841, 49285, 49729, 50177, 50625]) := by
  obtain ⟨h2, hbase, hraw, hadj, hscript⟩ := gen_ok_elim hok
  refine ⟨⟨hbase, ?_⟩, ?_, ?_⟩
  · intro i hi
    interval_cases i <;> simp [hraw, hbase, levelsOf, sqrtBase] <;> ring
  · rw [okLevels_concrete (sqrtBase_of_bounds 100 10 (by norm_num) (by norm_num)) (by norm_num)]
    decide
  · rw [okLevels_concrete (sqrtBase_of_bounds 50000 223 (by norm_num) (by norm_num))
      (by norm_num)]
    decide

/-- Witness for C1 at `basePrice = 100`. -/
theorem generate_base_and_rawLevels_witness :
    ∃ ls, generatePineScript 100 ("AAPL") = Except.ok ls ∧
      (ls.base = Nat.sqrt ⌊(100 : ℚ)⌋₊ ∧
        ∀ i : ℕ, i < 5 → ls.rawLevels.getD i 0 = ((ls.base : ℤ) + ((i : ℤ) - 2)) ^ 2) := by
  have hb : ¬ sqrtBase 100 < 2 := by
    rw [sqrtBase_of_bounds 100 10 (by norm_num) (by norm_num)]
    omega
  exact ⟨_, gen_eq_ok hb,
    (generate_base_and_rawLevels 100 ("AAPL") _ (by norm_num) (gen_eq_ok hb)).1⟩

/-- Claim C2: for every positive `basePrice` and every symbol, the generator
fails if and only if `base = floor(sqrt(basePrice)) < 2`, equivalently
`basePrice < 4`; for all `basePrice ≥ 4` it succeeds, so the `base < 2` guard
is the sole validation gate. -/
theorem generate_error_iff_gate (bp : ℚ) (sym : String) (hpos : 0 < bp) :
    ((∃ e, generatePineScript bp sym = Except.error e) ↔ sqrtBase bp < 2) ∧
    (sqrtBase bp < 2 ↔ bp < 4) ∧
    (4 ≤ bp → ∃ ls, generatePineScript bp sym = Except.ok ls) := by
  refine ⟨⟨?_, fun hb => ⟨_, gen_eq_error hb⟩⟩, sqrtBase_lt_two_iff hpos, ?_⟩
  · rintro ⟨e, he⟩
    by_contra hb
    rw [gen_eq_ok hb] at he
    exact absurd he (by simp)
  · intro h4
    have hb : ¬ sqrtBase bp < 2 := by
      rw [sqrtBase_lt_two_iff hpos]
      exact not_lt.mpr h4
    exact ⟨_, gen_eq_ok hb⟩

/-- Witness for C2 at `basePrice = 50000`. -/
theorem generate_error_iff_gate_witness :
    ((∃ e, generatePineScript 50000 ("BTCUSD") = Except.error e) ↔ sqrtBase 50000 < 2) ∧
    (sqrtBase 50000 < 2 ↔ (50000 : ℚ) < 4) ∧
    ((4 : ℚ) ≤ 50000 → ∃ ls, generatePineScript 50000 ("BTCUSD") = Except.ok ls) :=
  generate_error_iff_gate 50000 ("BTCUSD") (by norm_num)

/-- Claim C3: on every valid input (`basePrice ≥ 4`), `adjustedLevels[i]`
equals `rawLevels[i] + 1` when `rawLevels[i]` is even and `rawLevels[i]`
unchanged otherwise, and every entry `adjustedLevels[i]`, `i` in `0..4`,
is odd. -/
theorem adjustedLevels_odd (bp : ℚ) (sym : String) (ls : LevelSet)
    (h4 : 4 ≤ bp) (hok : generatePineScript bp sym = Except.ok ls) :
    (∀ i : ℕ, i < 5 →
      (Even (ls.rawLevels.getD i 0) →
        ls.adjustedLevels.getD i 0 = ls.rawLevels.getD i 0 + 1) ∧
      (¬ Even (ls.rawLevels.getD i 0) →
        ls.adjustedLevels.getD i 0 = ls.rawLevels.getD i 0)) ∧
    (∀ i : ℕ, i < 5 → Odd (ls.adjustedLevels.getD i 0)) := by
  obtain ⟨h2, hbase, hraw, hadj, hscript⟩ := gen_ok_elim hok
  constructor
  · intro i hi
    rw [hadj, hraw, map_adjust_getD _ i hi]
    constructor
    · intro he
      rw [adjustLevel, if_pos (Int.even_iff.mp he)]
    · intro hne
      rw [adjustLevel, if_neg (fun hc => hne (Int.even_iff.mpr hc))]
  · intro i hi
    rw [hadj, map_adjust_getD _ i hi]
    exact adjustLevel_odd _

/-- Witness for C3 at `basePrice = 100`. -/
theorem adjustedLevels_odd_witness :
    ∃ ls, generatePineScript 100 ("AAPL") = Except.ok ls ∧
      (∀ i : ℕ, i < 5 →
        (Even (ls.rawLevels.getD i 0) →
          ls.adjustedLevels.getD i 0 = ls.rawLevels.getD i 0 + 1) ∧
        (¬ Even (ls.rawLevels.getD i 0) →
          ls.adjustedLevels.getD i 0 = ls.rawLevels.getD i 0)) ∧
      (∀ i : ℕ, i < 5 → Odd (ls.adjustedLevels.getD i 0)) := by
  have hb : ¬ sqrtBase 100 < 2 := by
    rw [sqrtBase_of_bounds 100 10 (by norm_num) (by norm_num)]
    omega
  exact ⟨_, gen_eq_ok hb,
    adjustedLevels_odd 100 ("AAPL") _ (by norm_num) (gen_eq_ok hb)⟩

/-- Counterexample to C4 as stated: at the valid input `basePrice = 4`
(`base = 2` passes the gate) the adjusted levels are `[1,1,5,9,17]`, and the
first two entries are equal, so the sequence is not strictly increasing. -/
theorem adjusted_strict_counterexample :
    ∃ ls, generatePineScript 4 ("BTCUSD") = Except.ok ls ∧
      ls.adjustedLevels = [1, 1, 5, 9, 17] ∧
      ¬ (ls.adjustedLevels.getD 0 0 < ls.adjustedLevels.getD 1 0) := by
  have h : sqrtBase 4 = 2 := sqrtBase_of_bounds 4 2 (by norm_num) (by norm_num)
  have hb : ¬ sqrtBase 4 < 2 := by omega
  refine ⟨_, gen_eq_ok hb, ?_, ?_⟩ <;> simp only [h] <;> decide

/-- Claim C4 (amended): for every valid input whose `base` is at least 3
(equivalently `basePrice ≥ 9`), the adjusted level sequence is strictly
increasing; at `base = 2` strictness fails (see the counterexample), only
monotonicity holds there. -/
theorem adjusted_strictly_increasing (bp : ℚ) (sym : String) (ls : LevelSet)
    (hok : generatePineScript bp sym = Except.ok ls) (hb3 : 3 ≤ ls.base) :
    ls.adjustedLevels.getD 0 0 < ls.adjustedLevels.getD 1 0 ∧
    ls.adjustedLevels.getD 1 0 < ls.adjustedLevels.getD 2 0 ∧
    ls.adjustedLevels.getD 2 0 < ls.adjustedLevels.getD 3 0 ∧
    ls.adjustedLevels.getD 3 0 < ls.adjustedLevels.getD 4 0 := by
  obtain ⟨h2, hbase, hraw, hadj, hscript⟩ := gen_ok_elim hok
  have hb : (3 : ℤ) ≤ ((sqrtBase bp : ℕ) : ℤ) := by
    rw [hbase] at hb3
    exact_mod_cast hb3
  have hs := strict_of_three hb
  rw [hadj]
  simpa [levelsOf] using hs

/-- Witness for the amended C4 at `basePrice = 100` (`base = 10 ≥ 3`). -/
theorem adjusted_strictly_increasing_witness :
    ∃ ls, generatePineScript 100 ("AAPL") = Except.ok ls ∧
      (ls.adjustedLevels.getD 0 0 < ls.adjustedLevels.getD 1 0 ∧
       ls.adjustedLevels.getD 1 0 < ls.adjustedLevels.getD 2 0 ∧
       ls.adjustedLevels.getD 2 0 < ls.adjustedLevels.getD 3 0 ∧
       ls.adjustedLevels.getD 3 0 < ls.adjustedLevels.getD 4 0) := by
  have h : sqrtBase 100 = 10 := sqrtBase_of_bounds 100 10 (by norm_num) (by norm_num)
  have hb : ¬ sqrtBase 100 < 2 := by omega
  refine ⟨_, gen_eq_ok hb,
    adjusted_strictly_increasing 100 ("AAPL") _ (gen_eq_ok hb) ?_⟩
  show 3 ≤ sqrtBase 100
  omega

/-- Claim C5: at the boundary input `basePrice = 4` the generator computes
`base = 2`, the `base < 2` guard does not fire, and the result has
`rawLevels = [0,1,4,9,16]` and `adjustedLevels = [1,1,5,9,17]`. -/
theorem boundary_price_four :
    okLevels 4 ("BTCUSD") = some (2, [0, 1, 4, 9, 16], [1, 1, 5, 9, 17]) := by
  rw [okLevels_concrete (sqrtBase_of_bounds 4 2 (by norm_num) (by norm_num)) (by norm_num)]
  decide

lemma strContains_iff_data {s t : String} : strContains s t ↔ t.data <:+: s.data := by
  constructor
  · rintro ⟨pre, post, rfl⟩
    exact ⟨pre.data, post.data, by simp [String.data_append]⟩
  · rintro ⟨l₁, l₂, hl⟩
    cases s with
    | mk d =>
      cases t with
      | mk td =>
        exact ⟨⟨l₁⟩, ⟨l₂⟩, congrArg String.mk hl.symm⟩

set_option maxRecDepth 8192 in
/-- Counterexample to C6 as stated: at `basePrice = 39/10 < 4` with the
non-empty lower-case symbol `"btc"`, the generator does return an error, but
its message upper-cases the symbol, so it does not contain the supplied
symbol `"btc"` itself. -/
theorem error_contains_symbol_counterexample :
    (0 : ℚ) < 39 / 10 ∧ (39 / 10 : ℚ) < 4 ∧ ("btc" : String) ≠ "" ∧
    generatePineScript (39 / 10) ("btc") = Except.error (errorMessage ("btc")) ∧
    ¬ strContains (errorMessage ("btc")) ("btc") := by
  have h : sqrtBase (39 / 10) = 1 := sqrtBase_of_bounds (39 / 10) 1 (by norm_num) (by norm_num)
  refine ⟨by norm_num, by norm_num, by decide, gen_eq_error (by omega), ?_⟩
  rw [strContains_iff_data]
  decide

/-- Claim C6 (amended): for every positive `basePrice < 4` and every symbol,
the generator returns an error whose message contains the upper-cased supplied
symbol and contains the text "too low"; in particular `basePrice = 3.9` yields
such an error. -/
theorem error_mentions_symbol (bp : ℚ) (sym : String) (hpos : 0 < bp) (hlt : bp < 4) :
    generatePineScript bp sym = Except.error (errorMessage sym) ∧
    strContains (errorMessage sym) (strToUpper sym) ∧
    strContains (errorMessage sym) ("too low") := by
  refine ⟨gen_eq_error ((sqrtBase_lt_two_iff hpos).mpr hlt), ?_, ?_⟩
  · exact ⟨"Price for ",
      " is too low to generate meaningful trend lines (must be >= 4).", rfl⟩
  · refine ⟨"Price for " ++ strToUpper sym ++ " is ",
      " to generate meaningful trend lines (must be >= 4).", ?_⟩
    have hsplit : (" is too low to generate meaningful trend lines (must be >= 4)." : String) =
        " is " ++ "too low" ++ " to generate meaningful trend lines (must be >= 4)." := by
      decide
    rw [errorMessage, hsplit]
    simp [String.append_assoc]

/-- Witness for the amended C6 at `basePrice = 3.9`, symbol `"btc"`. -/
theorem error_mentions_symbol_witness :
    generatePineScript (39 / 10) ("btc") = Except.error (errorMessage ("btc")) ∧
    strContains (errorMessage ("btc")) (strToUpper ("btc")) ∧
    strContains (errorMessage ("btc")) ("too low") :=
  error_mentions_symbol (39 / 10) ("btc") (by norm_num) (by norm_num)

/-- Claim C7: on success, the rendered script embeds the upper-cased symbol,
the `basePrice`, the `base`, and the five adjusted levels at fixed labelled
positions — index 0 labelled "Level -2", index 1 "Level -1", index 2
"Base Level", index 3 "Level +1", index 4 "Level +2" — in index order 0
through 4, preceded by the fixed version/indicator header. -/
theorem script_layout (bp : ℚ) (sym : String) (ls : LevelSet)
    (hok : generatePineScript bp sym = Except.ok ls) :
    ∃ g₁ g₂ g₃ g₄ : String,
      ls.script =
        scriptHeader ++ g₁ ++ strToUpper sym ++ g₂ ++ toString bp ++ g₃ ++
          toString ls.base ++ g₄ ++
          plotLine (ls.adjustedLevels.getD 0 0) ("Level -2") 2 ++ "\n" ++
          plotLine (ls.adjustedLevels.getD 1 0) ("Level -1") 2 ++ "\n" ++
          plotLine (ls.adjustedLevels.getD 2 0) ("Base Level") 3 ++ "\n" ++
          plotLine (ls.adjustedLevels.getD 3 0) ("Level +1") 2 ++ "\n" ++
          plotLine (ls.adjustedLevels.getD 4 0) ("Level +2") 2 := by
  obtain ⟨h2, hbase, hraw, hadj, hscript⟩ := gen_ok_elim hok
  exact ⟨"// Generated for symbol: ", " around price: ",
    "\n// Base perfect square root: ",
    "\n// Logic: If a calculated level is an even number, 1 is added to it.\n\n",
    by rw [hscript, hbase, hadj]; rfl⟩

/-- Witness for C7 at `basePrice = 100`, symbol `"AAPL"`. -/
theorem script_layout_witness :
    ∃ ls, generatePineScript 100 ("AAPL") = Except.ok ls ∧
      ∃ g₁ g₂ g₃ g₄ : String,
        ls.script =
          scriptHeader ++ g₁ ++ strToUpper ("AAPL") ++ g₂ ++ toString (100 : ℚ) ++ g₃ ++
            toString ls.base ++ g₄ ++
            plotLine (ls.adjustedLevels.getD 0 0) ("Level -2") 2 ++ "\n" ++
            plotLine (ls.adjustedLevels.getD 1 0) ("Level -1") 2 ++ "\n" ++
            plotLine (ls.adjustedLevels.getD 2 0) ("Base Level") 3 ++ "\n" ++
            plotLine (ls.adjustedLevels.getD 3 0) ("Level +1") 2 ++ "\n" ++
            plotLine (ls.adjustedLevels.getD 4 0) ("Level +2") 2 := by
  have hb : ¬ sqrtBase 100 < 2 := by
    rw [sqrtBase_of_bounds 100 10 (by norm_num) (by norm_num)]
    omega
  exact ⟨_, gen_eq_ok hb, script_layout 100 ("AAPL") _ (gen_eq_ok hb)⟩

/-- Claim C8: the generator is deterministic and side-effect free — two calls
with identical inputs produce identical outputs (it is a pure function of its
two arguments in the embedding, so equality of inputs gives equality of the
full result, rendered script included). -/
theorem generate_deterministic (bp₁ bp₂ : ℚ) (sym₁ sym₂ : String)
    (hbp : bp₁ = bp₂) (hsym : sym₁ = sym₂) :
    generatePineScript bp₁ sym₁ = generatePineScript bp₂ sym₂ := by
  rw [hbp, hsym]

/-- Witness for C8 at `basePrice = 50000`, symbol `"BTCUSD"`. -/
theorem generate_deterministic_witness :
    generatePineScript 50000 ("BTCUSD") = generatePineScript 50000 ("BTCUSD") :=
  generate_deterministic 50000 50000 ("BTCUSD") ("BTCUSD") rfl rfl

/-- Claim C9: for every input that passes the gate, `adjustedLevels` is
non-decreasing, and whenever `base ≥ 3` — which holds exactly when
`basePrice ≥ 9` — it is strictly increasing. -/
theorem adjusted_monotone (bp : ℚ) (sym : String) (ls : LevelSet)
    (hok : generatePineScript bp sym = Except.ok ls) :
    (ls.adjustedLevels.getD 0 0 ≤ ls.adjustedLevels.getD 1 0 ∧
     ls.adjustedLevels.getD 1 0 ≤ ls.adjustedLevels.getD 2 0 ∧
     ls.adjustedLevels.getD 2 0 ≤ ls.adjustedLevels.getD 3 0 ∧
     ls.adjustedLevels.getD 3 0 ≤ ls.adjustedLevels.getD 4 0) ∧
    (3 ≤ ls.base ↔ 9 ≤ bp) ∧
    (3 ≤ ls.base →
      ls.adjustedLevels.getD 0 0 < ls.adjustedLevels.getD 1 0 ∧
      ls.adjustedLevels.getD 1 0 < ls.adjustedLevels.getD 2 0 ∧
      ls.adjustedLevels.getD 2 0 < ls.adjustedLevels.getD 3 0 ∧
      ls.adjustedLevels.getD 3 0 < ls.adjustedLevels.getD 4 0) := by
  obtain ⟨h2, hbase, hraw, hadj, hscript⟩ := gen_ok_elim hok
  have hq : 0 ≤ bp := le_trans (by norm_num) (ok_four_le hok)
  refine ⟨?_, ?_, ?_⟩
  · have hb : (2 : ℤ) ≤ ((sqrtBase bp : ℕ) : ℤ) := by exact_mod_cast h2
    have hm := mono_of_two hb
    rw [hadj]
    simpa [levelsOf] using hm
  · rw [hbase]
    constructor
    · intro h3
      have h9 : 9 ≤ ⌊bp⌋₊ := by
        have := Nat.le_sqrt.mp h3
        omega
      calc (9 : ℚ) ≤ (⌊bp⌋₊ : ℚ) := by exact_mod_cast h9
      _ ≤ bp := Nat.floor_le hq
    · intro h9
      have h9n : 9 ≤ ⌊bp⌋₊ := Nat.le_floor (by exact_mod_cast h9)
      exact Nat.le_sqrt.mpr (by omega)
  · intro hb3
    have hb : (3 : ℤ) ≤ ((sqrtBase bp : ℕ) : ℤ) := by
      rw [hbase] at hb3
      exact_mod_cast hb3
    have hs := strict_of_three hb
    rw [hadj]
    simpa [levelsOf] using hs

/-- Witness for C9 at `basePrice = 50000`, symbol `"BTCUSD"`. -/
theorem adjusted_monotone_witness :
    ∃ ls, generatePineScript 50000 ("BTCUSD") = Except.ok ls ∧
      ((ls.adjustedLevels.getD 0 0 ≤ ls.adjustedLevels.getD 1 0 ∧
        ls.adjustedLevels.getD 1 0 ≤ ls.adjustedLevels.getD 2 0 ∧
        ls.adjustedLevels.getD 2 0 ≤ ls.adjustedLevels.getD 3 0 ∧
        ls.adjustedLevels.getD 3 0 ≤ ls.adjustedLevels.getD 4 0) ∧
       (3 ≤ ls.base ↔ (9 : ℚ) ≤ 50000) ∧
       (3 ≤ ls.base →
         ls.adjustedLevels.getD 0 0 < ls.adjustedLevels.getD 1 0 ∧
         ls.adjustedLevels.getD 1 0 < ls.adjustedLevels.getD 2 0 ∧
         ls.adjustedLevels.getD 2 0 < ls.adjustedLevels.getD 3 0 ∧
         ls.adjustedLevels.getD 3 0 < ls.adjustedLevels.getD 4 0)) := by
  have hb : ¬ sqrtBase 50000 < 2 := by
    rw [sqrtBase_of_bounds 50000 223 (by norm_num) (by norm_num)]
    omega
  exact ⟨_, gen_eq_ok hb, adjusted_monotone 50000 ("BTCUSD") _ (gen_eq_ok hb)⟩

/-- Claim C10: for every valid input (`basePrice ≥ 4`), the middle raw level
`rawLevels[2] = base²` is the largest perfect square not exceeding
`basePrice` — `base² ≤ basePrice < (base+1)²` — so the "Base Level" never
exceeds the input price and the raw "Level +1" strictly exceeds it. -/
theorem base_square_bounds (bp : ℚ) (sym : String) (ls : LevelSet)
    (h4 : 4 ≤ bp) (hok : generatePineScript bp sym = Except.ok ls) :
    ((ls.base : ℚ) * (ls.base : ℚ) ≤ bp ∧
      bp < ((ls.base : ℚ) + 1) * ((ls.base : ℚ) + 1)) ∧
    ((ls.rawLevels.getD 2 0 : ℤ) : ℚ) ≤ bp ∧
    bp < ((ls.rawLevels.getD 3 0 : ℤ) : ℚ) := by
  obtain ⟨h2, hbase, hraw, hadj, hscript⟩ := gen_ok_elim hok
  have hq : 0 ≤ bp := le_trans (by norm_num) h4
  have hlo : ((sqrtBase bp : ℚ)) * (sqrtBase bp : ℚ) ≤ bp := by
    have h1 : sqrtBase bp * sqrtBase bp ≤ ⌊bp⌋₊ := Nat.sqrt_le ⌊bp⌋₊
    calc ((sqrtBase bp : ℚ)) * (sqrtBase bp : ℚ)
        = ((sqrtBase bp * sqrtBase bp : ℕ) : ℚ) := by push_cast; ring
    _ ≤ (⌊bp⌋₊ : ℚ) := by exact_mod_cast h1
    _ ≤ bp := Nat.floor_le hq
  have hhi : bp < ((sqrtBase bp : ℚ) + 1) * ((sqrtBase bp : ℚ) + 1) := by
    have h1 : ⌊bp⌋₊ < (sqrtBase bp + 1) * (sqrtBase bp + 1) := Nat.lt_succ_sqrt ⌊bp⌋₊
    have h1q : (⌊bp⌋₊ : ℚ) + 1 ≤ ((sqrtBase bp + 1) * (sqrtBase bp + 1) : ℕ) := by
      exact_mod_cast h1
    calc bp < (⌊bp⌋₊ : ℚ) + 1 := Nat.lt_floor_add_one bp
    _ ≤ (((sqrtBase bp + 1) * (sqrtBase bp + 1) : ℕ) : ℚ) := h1q
    _ = ((sqrtBase bp : ℚ) + 1) * ((sqrtBase bp : ℚ) + 1) := by push_cast; ring
  refine ⟨⟨?_, ?_⟩, ?_, ?_⟩
  · rw [hbase]
    exact hlo
  · rw [hbase]
    exact hhi
  · rw [hraw]
    simpa [levelsOf] using hlo
  · rw [hraw]
    simpa [levelsOf] using hhi

/-- Witness for C10 at `basePrice = 50000`, symbol `"BTCUSD"`. -/
theorem base_square_bounds_witness :
    ∃ ls, generatePineScript 50000 ("BTCUSD") = Except.ok ls ∧
      (((ls.base : ℚ) * (ls.base : ℚ) ≤ 50000 ∧
        (50000 : ℚ) < ((ls.base : ℚ) + 1) * ((ls.base : ℚ) + 1)) ∧
       ((ls.rawLevels.getD 2 0 : ℤ) : ℚ) ≤ 50000 ∧
       (50000 : ℚ) < ((ls.rawLevels.getD 3 0 : ℤ) : ℚ)) := by
  have hb : ¬ sqrtBase 50000 < 2 := by
    rw [sqrtBase_of_bounds 50000 223 (by norm_num) (by norm_num)]
    omega
  exact ⟨_, gen_eq_ok hb,
    base_square_bounds 50000 ("BTCUSD") _ (by norm_num) (gen_eq_ok hb)⟩

lemma sqrtBase_eq_floor_real_sqrt (q : ℚ) (hq : 0 ≤ q) :
    sqrtBase q = ⌊Real.sqrt (q : ℝ)⌋₊ := by
  have hqr : (0 : ℝ) ≤ (q : ℝ) := by exact_mod_cast hq
  have hfl : ((⌊q⌋₊ : ℕ) : ℝ) ≤ (q : ℝ) := by
    have := Nat.floor_le hq
    exact_mod_cast this
  have hfu : (q : ℝ) < ((⌊q⌋₊ : ℕ) : ℝ) + 1 := by
    have := Nat.lt_floor_add_one q
    exact_mod_cast this
  symm
  rw [sqrtBase, Nat.floor_eq_iff (Real.sqrt_nonneg _)]
  constructor
  · rw [Real.le_sqrt (by positivity) hqr]
    calc ((Nat.sqrt ⌊q⌋₊ : ℕ) : ℝ) ^ 2
        = ((Nat.sqrt ⌊q⌋₊ * Nat.sqrt ⌊q⌋₊ : ℕ) : ℝ) := by push_cast; ring
    _ ≤ ((⌊q⌋₊ : ℕ) : ℝ) := by exact_mod_cast Nat.sqrt_le ⌊q⌋₊
    _ ≤ (q : ℝ) := hfl
  · rw [Real.sqrt_lt' (by positivity)]
    calc (q : ℝ) < ((⌊q⌋₊ : ℕ) : ℝ) + 1 := hfu
    _ ≤ ((Nat.sqrt ⌊q⌋₊ : ℝ) + 1) ^ 2 := by
        have h : (⌊q⌋₊ : ℝ) + 1 ≤ (((Nat.sqrt ⌊q⌋₊ + 1) * (Nat.sqrt ⌊q⌋₊ + 1) : ℕ) : ℝ) := by
          exact_mod_cast Nat.lt_succ_sqrt ⌊q⌋₊
        calc ((⌊q⌋₊ : ℕ) : ℝ) + 1
            ≤ (((Nat.sqrt ⌊q⌋₊ + 1) * (Nat.sqrt ⌊q⌋₊ + 1) : ℕ) : ℝ) := h
        _ = ((Nat.sqrt ⌊q⌋₊ : ℝ) + 1) ^ 2 := by push_cast; ring
